import Mathlib

/-!
Verification of the filter → aggregate → resample pipeline of
`src/dashboard.py` (Tanzania political sentiment dashboard).

The dashboard loads a CSV into an in-memory table `df`, applies three
conjunctive filters chosen in the sidebar, and derives KPIs, a daily
resampled time series, a per-topic summary and a single-record
explainability lookup from the filtered table.  We embed the table as a
`List Record` (rows in file order) and each pandas operation as a pure
Lean function on that list.
-/

namespace Dashboard

/-- One row of the loaded CSV (`load_data` in `dashboard.py`).
`timestamp` is modelled as a rational number of days since an epoch, so
that the calendar day of a timestamp is its floor; `predicted_confidence`
and `trust_score` are rationals. -/
structure Record where
  tweet_id : String
  timestamp : ℚ
  topic : String
  text : String
  predicted_sentiment : String
  predicted_confidence : ℚ
  trust_score : ℚ
  trust_explanation : String
  deriving DecidableEq, Repr

/-- The calendar day of a record's timestamp (`resample('D')` buckets rows
by the day their timestamp falls in, i.e. by the floor of the timestamp
expressed in days). -/
def dayOf (r : Record) : ℤ := ⌊r.timestamp⌋

/-- The row-wise filter predicate of the filter stage:
`topic ∈ topic_filter ∧ trust_score ≥ min_trust ∧ confidence ≥ min_conf`. -/
def keepRow (topics : List String) (min_trust min_conf : ℚ) (r : Record) : Bool :=
  topics.contains r.topic && decide (min_trust ≤ r.trust_score)
    && decide (min_conf ≤ r.predicted_confidence)

/-- Source line `df_filtered = df[(df.topic.isin(topic_filter)) & (df.trust_score >= min_trust_score) & (df.predicted_confidence >= min_sentiment_confidence)]`:
the boolean-mask row selection of pandas, i.e. the order-preserving
subsequence of rows whose mask is true. -/
def df_filtered (df : List Record) (topics : List String)
    (min_trust min_conf : ℚ) : List Record :=
  df.filter (keepRow topics min_trust min_conf)

/-- Worker for first-occurrence deduplication: `seen` holds the values
already emitted. -/
def uniqueFirstAux (seen : List String) : List String → List String
  | [] => []
  | x :: xs =>
    if seen.contains x then uniqueFirstAux seen xs
    else x :: uniqueFirstAux (x :: seen) xs

/-- First-occurrence deduplication, the semantics of pandas
`Series.unique()`: each value is kept at its first appearance and later
duplicates are dropped. -/
def uniqueFirst (l : List String) : List String := uniqueFirstAux [] l

/-- Source expression `df["topic"].unique()`: the distinct topic labels of the full table, in
order of first appearance (the default of the topic multiselect). -/
def uniqueTopics (df : List Record) : List String :=
  uniqueFirst (df.map Record.topic)

/-- Python's `<=` on strings, as used by numpy/pandas when sorting string
values: lexicographic comparison of the underlying character sequences by
code point. -/
def strLeB (a b : String) : Bool := decide (a.data ≤ b.data)

/-- Insert a value into a list that is ascending with respect to
`strLeB`. -/
def insertSorted (x : String) : List String → List String
  | [] => [x]
  | y :: ys => if strLeB x y then x :: y :: ys else y :: insertSorted x ys

/-- Ascending sort of string values.  pandas `Series.mode()` returns its
result in sorted order; the sorted values are pairwise distinct, so any
correct sorting algorithm yields the same list. -/
def sortStrings : List String → List String
  | [] => []
  | x :: xs => insertSorted x (sortStrings xs)

/-- The maximal occurrence count of any value of a series. -/
def maxCount (l : List String) : ℕ :=
  (l.map fun s => l.count s).foldr max 0

/-- pandas `Series.mode()`: the distinct values whose occurrence count is
maximal, in ascending sorted order. -/
def seriesMode (l : List String) : List String :=
  sortStrings ((uniqueFirst l).filter fun s => l.count s == maxCount l)

/-- The guarded mode expression appearing three times in `dashboard.py`
(`x.mode()[0] if not x.empty else fallback`, with fallback `"N/A"` for the
KPI and the per-topic summary and `'neutral'` for the daily resample).
The inner `[]` branch models the `IndexError` a bare `mode()[0]` would
raise on an empty series; it is unreachable because the mode of a
non-empty series is non-empty (`seriesMode_ne_nil`). -/
def modeOrElse (fallback : String) (l : List String) : String :=
  if l.isEmpty then fallback
  else
    match seriesMode l with
    | [] => fallback
    | m :: _ => m

/-- pandas `Series.mean()`: sum of the values divided by their number. -/
def seriesMean (l : List ℚ) : ℚ := l.sum / l.length

/-- numpy rounding to the nearest integer with ties to even, the rounding
used by `DataFrame.round`. -/
def roundHalfEven (q : ℚ) : ℤ :=
  if q - ⌊q⌋ < 1 / 2 then ⌊q⌋
  else if 1 / 2 < q - ⌊q⌋ then ⌊q⌋ + 1
  else if ⌊q⌋ % 2 = 0 then ⌊q⌋ else ⌊q⌋ + 1

/-- Rounding `.round(2)`: round to two decimal places. -/
def round2 (q : ℚ) : ℚ := roundHalfEven (q * 100) / 100

/-- KPI
`most_frequent_sentiment = df_filtered["predicted_sentiment"].mode()[0] if not df_filtered["predicted_sentiment"].empty else "N/A"`. -/
def most_frequent_sentiment (f : List Record) : String :=
  modeOrElse "N/A" (f.map Record.predicted_sentiment)

/-- Modelled from the spec (for comparison with the code's behaviour):
"mode of `predicted_sentiment` (first-encountered value among ties, or a
sentinel \"N/A\" if the set is empty)" — the first value of the series, in
the series' order, whose occurrence count is maximal. -/
def specModeFirstEncountered (l : List String) : String :=
  if l.isEmpty then "N/A"
  else
    match l.filter fun s => l.count s == maxCount l with
    | [] => "N/A"
    | m :: _ => m

/-- Source dictionary `sentiment_map = {'positive': 1, 'neutral': 0, 'negative': -1}`,
applied with `Series.map`, which yields a missing value (NaN, modelled as
`none`) for any label not in the dictionary. -/
def sentiment_map (s : String) : Option ℤ :=
  if s = "positive" then some 1
  else if s = "neutral" then some 0
  else if s = "negative" then some (-1)
  else none

/-- One row of `df_resampled`.  `timestamp` is the day label of the
bucket; `trust_score = none` models the NaN that `mean` produces on an
empty bucket; `sentiment_value` is the mapped sentiment column added after
the resample. -/
structure ResampledRow where
  timestamp : ℤ
  predicted_sentiment : String
  trust_score : Option ℚ
  sentiment_value : Option ℤ
  deriving DecidableEq, Repr

/-- The records of `f` falling on day `d` (one resample bucket), in
order. -/
def bucket (f : List Record) (d : ℤ) : List Record :=
  f.filter fun r => dayOf r == d

/-- The first and last calendar day of the set, or `none` when it is
empty.  `resample('D')` creates one bucket per day of this span. -/
def daysSpan (f : List Record) : Option (ℤ × ℤ) :=
  match f.map dayOf with
  | [] => none
  | d :: ds => some (ds.foldl min d, ds.foldl max d)

/-- The day labels produced by `resample('D')`: every calendar day from
the first to the last day of the set, consecutive, ascending. -/
def resampleDays (f : List Record) : List ℤ :=
  match daysSpan f with
  | none => []
  | some (lo, hi) => (List.range (hi - lo + 1).toNat).map fun i : ℕ => lo + (i : ℤ)

/-- Source line `df_resampled = df_filtered.set_index('timestamp').resample('D').agg({'predicted_sentiment': lambda x: x.mode()[0] if not x.empty else 'neutral', 'trust_score': 'mean'}).reset_index()`
followed by
`df_resampled['sentiment_value'] = df_resampled['predicted_sentiment'].map(sentiment_map)`. -/
def df_resampled (f : List Record) : List ResampledRow :=
  (resampleDays f).map fun d =>
    let b := bucket f d
    let s := modeOrElse "neutral" (b.map Record.predicted_sentiment)
    { timestamp := d
      predicted_sentiment := s
      trust_score :=
        if b.isEmpty then none else some (seriesMean (b.map Record.trust_score))
      sentiment_value := sentiment_map s }

/-- One row of the `topic_summary` table. -/
structure TopicRow where
  topic : String
  total_posts : ℕ
  avg_trust_score : ℚ
  avg_sentiment_confidence : ℚ
  most_frequent_sentiment : String
  deriving DecidableEq, Repr

/-- The records of `f` with topic `t` (one groupby group), in order. -/
def topicGroup (f : List Record) (t : String) : List Record :=
  f.filter fun r => r.topic == t

/-- Source line `topic_summary = df_filtered.groupby("topic").agg(total_posts=("tweet_id", "count"), avg_trust_score=("trust_score", "mean"), avg_sentiment_confidence=("predicted_confidence", "mean"), most_frequent_sentiment=("predicted_sentiment", lambda x: x.mode()[0] if not x.empty else "N/A")).reset_index().round(2)`:
one row per distinct topic of the filtered set, keys in ascending sorted
order (`groupby` default); `.round(2)` rounds the two mean columns. -/
def topic_summary (f : List Record) : List TopicRow :=
  (sortStrings (uniqueFirst (f.map Record.topic))).map fun t =>
    let g := topicGroup f t
    { topic := t
      total_posts := (g.map Record.tweet_id).length
      avg_trust_score := round2 (seriesMean (g.map Record.trust_score))
      avg_sentiment_confidence := round2 (seriesMean (g.map Record.predicted_confidence))
      most_frequent_sentiment := modeOrElse "N/A" (g.map Record.predicted_sentiment) }

/-- Source line `selected_row = df_filtered[df_filtered["tweet_id"] == selected_tweet_id].iloc[0]`:
the first record of the filtered set carrying the selected id; `none`
models the `IndexError` of `.iloc[0]` when no row matches. -/
def selected_row (f : List Record) (tid : String) : Option Record :=
  (f.filter fun r => r.tweet_id == tid).head?

/-- A value of one cell of the displayed field dump. -/
inductive FieldValue where
  | str : String → FieldValue
  | rat : ℚ → FieldValue
  deriving DecidableEq, Repr

/-- Source expression `selected_row.drop('trust_explanation').to_dict()`: the structured
dump of every field of the record other than `trust_explanation` (which
the page shows separately as the free-form explanation). -/
def full_details (r : Record) : List (String × FieldValue) :=
  [("tweet_id", FieldValue.str r.tweet_id),
   ("timestamp", FieldValue.rat r.timestamp),
   ("topic", FieldValue.str r.topic),
   ("text", FieldValue.str r.text),
   ("predicted_sentiment", FieldValue.str r.predicted_sentiment),
   ("predicted_confidence", FieldValue.rat r.predicted_confidence),
   ("trust_score", FieldValue.rat r.trust_score)]

/-- Everything the page renders below the sidebar when the filtered set is
non-empty. -/
structure DashboardOutput where
  total_posts : ℕ
  avg_trust_score : ℚ
  avg_sentiment_confidence : ℚ
  most_frequent_sentiment : String
  resampled : List ResampledRow
  topic_rows : List TopicRow
  selected : Option Record
  deriving Repr

/-- Outcome of one top-to-bottom run of the script: either the
empty-result warning (`st.warning` + `st.stop()`) or the rendered
aggregates. -/
inductive RenderResult where
  | noData
  | rendered : DashboardOutput → RenderResult

/-- One top-to-bottom run of the script body after the load: filter, then
either stop with the "no data" warning, or compute every aggregate and
the lookup.  `selId` is the tweet id chosen in the selectbox. -/
def runDashboard (df : List Record) (topics : List String)
    (min_trust min_conf : ℚ) (selId : String) : RenderResult :=
  let f := df_filtered df topics min_trust min_conf
  if f.isEmpty then RenderResult.noData
  else
    RenderResult.rendered
      { total_posts := f.length
        avg_trust_score := seriesMean (f.map Record.trust_score)
        avg_sentiment_confidence := seriesMean (f.map Record.predicted_confidence)
        most_frequent_sentiment := most_frequent_sentiment f
        resampled := df_resampled f
        topic_rows := topic_summary f
        selected := selected_row f selId }

/-- One sidebar interaction: a choice of the three filter values and of
the selected tweet id. -/
structure Interaction where
  topics : List String
  min_trust : ℚ
  min_conf : ℚ
  selId : String

/-- One rerun of the script over the loaded table.  Every pandas
operation the script applies (mask selection, `mean`, `mode`,
`set_index`, `resample`, `groupby`, `reset_index`, `round`, `iloc`,
`drop`) returns a new object; the loaded table is returned alongside the
render result, recording what the next rerun receives. -/
def rerun (df : List Record) (i : Interaction) : List Record × RenderResult :=
  (df, runDashboard df i.topics i.min_trust i.min_conf i.selId)

/-- The loaded table after a whole session: reruns triggered by a
sequence of interactions, each receiving the table left by the previous
one. -/
def sessionTable (df : List Record) (is : List Interaction) : List Record :=
  is.foldl (fun d i => (rerun d i).1) df

/-- A tiny concrete table used by the closed witness theorems. -/
def rec1 : Record :=
  { tweet_id := "t1", timestamp := 0, topic := "Economy", text := "a",
    predicted_sentiment := "positive", predicted_confidence := 1,
    trust_score := 10, trust_explanation := "e1" }

def rec2 : Record :=
  { tweet_id := "t2", timestamp := 0, topic := "Elections", text := "b",
    predicted_sentiment := "negative", predicted_confidence := 1,
    trust_score := 90, trust_explanation := "e2" }

def rec3 : Record :=
  { tweet_id := "t3", timestamp := 2, topic := "Economy", text := "c",
    predicted_sentiment := "positive", predicted_confidence := 1,
    trust_score := 95, trust_explanation := "e3" }

/-- A record sharing `rec1`'s tweet id (for the duplicate-id lookup
claim). -/
def recDup : Record :=
  { tweet_id := "t1", timestamp := 1, topic := "Economy", text := "d",
    predicted_sentiment := "neutral", predicted_confidence := 1,
    trust_score := 50, trust_explanation := "e4" }

def sampleDf : List Record := [rec1, rec2, rec3]

/-- Two records whose sentiments `"positive"` and `"negative"` are tied
for the most frequent value. -/
def tieDf : List Record := [rec1, rec2]

/-- Records on days 0 and 2 with no record on day 1. -/
def gapDf : List Record := [rec1, rec3]

/-- A table with a duplicated tweet id. -/
def dupDf : List Record := [rec1, recDup, rec3]

end Dashboard

namespace Dashboard

theorem mem_uniqueFirstAux {a : String} :
    ∀ (l seen : List String), a ∈ uniqueFirstAux seen l ↔ a ∈ l ∧ a ∉ seen := by
  intro l
  induction l with
  | nil => simp [uniqueFirstAux]
  | cons x xs ih =>
    intro seen
    rw [uniqueFirstAux]
    by_cases hx : x ∈ seen
    · rw [if_pos (by simpa [List.contains_eq_any_beq, List.any_beq,
        List.elem_eq_mem] using hx), ih seen]
      simp only [List.mem_cons]
      constructor
      · rintro ⟨h1, h2⟩; exact ⟨Or.inr h1, h2⟩
      · rintro ⟨rfl | h1, h2⟩
        · exact absurd hx h2
        · exact ⟨h1, h2⟩
    · rw [if_neg (by simpa [List.contains_eq_any_beq, List.any_beq,
        List.elem_eq_mem] using hx)]
      simp only [List.mem_cons, ih (x :: seen)]
      constructor
      · rintro (rfl | ⟨h1, h2⟩)
        · exact ⟨Or.inl rfl, hx⟩
        · exact ⟨Or.inr h1, fun h => h2 (Or.inr h)⟩
      · rintro ⟨rfl | h1, h2⟩
        · exact Or.inl rfl
        · by_cases hax : a = x
          · exact Or.inl hax
          · exact Or.inr ⟨h1, fun h => h.elim hax h2⟩

theorem mem_uniqueFirst {a : String} (l : List String) :
    a ∈ uniqueFirst l ↔ a ∈ l := by
  rw [uniqueFirst, mem_uniqueFirstAux]
  simp

theorem nodup_uniqueFirstAux :
    ∀ (l seen : List String), (uniqueFirstAux seen l).Nodup := by
  intro l
  induction l with
  | nil => intro seen; simp [uniqueFirstAux]
  | cons x xs ih =>
    intro seen
    rw [uniqueFirstAux]
    split
    · exact ih seen
    · rw [List.nodup_cons]
      refine ⟨fun hmem => ?_, ih (x :: seen)⟩
      rw [mem_uniqueFirstAux] at hmem
      exact hmem.2 (List.mem_cons_self x seen)

theorem nodup_uniqueFirst (l : List String) : (uniqueFirst l).Nodup :=
  nodup_uniqueFirstAux l []

theorem strLeB_iff {a b : String} : strLeB a b = true ↔ a ≤ b := by
  rw [strLeB, decide_eq_true_eq]
  exact String.le_iff_toList_le.symm

theorem strLeB_refl (a : String) : strLeB a a = true :=
  strLeB_iff.mpr le_rfl

theorem strLeB_trans {a b c : String} (h1 : strLeB a b = true)
    (h2 : strLeB b c = true) : strLeB a c = true :=
  strLeB_iff.mpr (le_trans (strLeB_iff.mp h1) (strLeB_iff.mp h2))

theorem strLeB_of_not {a b : String} (h : ¬ strLeB a b = true) :
    strLeB b a = true := by
  rcases le_total a b with h' | h'
  · exact absurd (strLeB_iff.mpr h') h
  · exact strLeB_iff.mpr h'

theorem perm_insertSorted (x : String) :
    ∀ l : List String, List.Perm (insertSorted x l) (x :: l) := by
  intro l
  induction l with
  | nil => exact List.Perm.refl _
  | cons y ys ih =>
    rw [insertSorted]
    split
    · exact List.Perm.refl _
    · exact (ih.cons y).trans (List.Perm.swap x y ys)

theorem perm_sortStrings : ∀ l : List String, List.Perm (sortStrings l) l := by
  intro l
  induction l with
  | nil => exact List.Perm.refl _
  | cons x xs ih =>
    rw [sortStrings]
    exact (perm_insertSorted x (sortStrings xs)).trans (ih.cons x)

theorem mem_insertSorted {a x : String} {l : List String} :
    a ∈ insertSorted x l ↔ a = x ∨ a ∈ l := by
  rw [(perm_insertSorted x l).mem_iff, List.mem_cons]

theorem sorted_insertSorted (x : String) :
    ∀ l : List String, l.Pairwise (fun a b => strLeB a b = true) →
      (insertSorted x l).Pairwise (fun a b => strLeB a b = true) := by
  intro l
  induction l with
  | nil => intro _; simp [insertSorted]
  | cons y ys ih =>
    intro hp
    rw [List.pairwise_cons] at hp
    rw [insertSorted]
    split
    · rename_i hxy
      rw [List.pairwise_cons]
      refine ⟨?_, List.pairwise_cons.mpr hp⟩
      intro a ha
      rcases List.mem_cons.mp ha with rfl | ha
      · exact hxy
      · exact strLeB_trans hxy (hp.1 a ha)
    · rename_i hxy
      rw [List.pairwise_cons]
      refine ⟨?_, ih hp.2⟩
      intro a ha
      rcases mem_insertSorted.mp ha with rfl | ha
      · exact strLeB_of_not hxy
      · exact hp.1 a ha

theorem sorted_sortStrings :
    ∀ l : List String, (sortStrings l).Pairwise (fun a b => strLeB a b = true) := by
  intro l
  induction l with
  | nil => simp [sortStrings]
  | cons x xs ih =>
    rw [sortStrings]
    exact sorted_insertSorted x (sortStrings xs) ih

theorem le_foldr_max {n : ℕ} : ∀ ns : List ℕ, n ∈ ns → n ≤ ns.foldr max 0 := by
  intro ns
  induction ns with
  | nil => intro h; cases h
  | cons m ms ih =>
    intro h
    rcases List.mem_cons.mp h with rfl | h
    · exact le_max_left _ _
    · exact le_trans (ih h) (le_max_right _ _)

theorem foldr_max_mem : ∀ ns : List ℕ, ns.foldr max 0 ∈ ns ∨ ns.foldr max 0 = 0 := by
  intro ns
  induction ns with
  | nil => exact Or.inr rfl
  | cons m ms ih =>
    simp only [List.foldr_cons]
    rcases le_total (ms.foldr max 0) m with h | h
    · rw [max_eq_left h]
      exact Or.inl (List.mem_cons_self m ms)
    · rw [max_eq_right h]
      rcases ih with hm | hz
      · exact Or.inl (List.mem_cons_of_mem m hm)
      · exact Or.inr hz

theorem count_le_maxCount {l : List String} {s : String} (hs : s ∈ l) :
    l.count s ≤ maxCount l :=
  le_foldr_max (l.map fun t => l.count t) (List.mem_map_of_mem _ hs)

theorem maxCount_attained {l : List String} (h : l ≠ []) :
    ∃ s ∈ l, l.count s = maxCount l := by
  rcases foldr_max_mem (l.map fun t => l.count t) with hm | hz
  · rcases List.mem_map.mp hm with ⟨s, hs, hcount⟩
    exact ⟨s, hs, hcount⟩
  · rcases List.exists_mem_of_ne_nil l h with ⟨x, hx⟩
    have h1 : 0 < l.count x := List.count_pos_iff.mpr hx
    have h2 : l.count x ≤ maxCount l := count_le_maxCount hx
    rw [maxCount] at h2
    omega

theorem mem_seriesMode {m : String} {l : List String} :
    m ∈ seriesMode l ↔ m ∈ l ∧ l.count m = maxCount l := by
  rw [seriesMode, (perm_sortStrings _).mem_iff, List.mem_filter,
    mem_uniqueFirst]
  simp only [beq_iff_eq]

theorem seriesMode_ne_nil {l : List String} (h : l ≠ []) :
    seriesMode l ≠ [] := by
  rcases maxCount_attained h with ⟨s, hs, hcount⟩
  intro hnil
  have : s ∈ seriesMode l := mem_seriesMode.mpr ⟨hs, hcount⟩
  rw [hnil] at this
  cases this

/-- Characterization of the guarded mode used throughout the dashboard:
on a non-empty series it returns an element of the series whose count is
maximal, and among the counts-maximal values it returns the
lexicographically least one (pandas `mode()` sorts its result and `[0]`
takes the first entry). -/
theorem modeOrElse_spec (fb : String) (l : List String) (h : l ≠ []) :
    modeOrElse fb l ∈ l ∧
    l.count (modeOrElse fb l) = maxCount l ∧
    (∀ s ∈ l, l.count s ≤ l.count (modeOrElse fb l)) ∧
    (∀ s ∈ l, l.count s = maxCount l → modeOrElse fb l ≤ s) := by
  have hne : seriesMode l ≠ [] := seriesMode_ne_nil h
  obtain ⟨m, rest, hmode⟩ : ∃ m rest, seriesMode l = m :: rest := by
    cases hsm : seriesMode l with
    | nil => exact absurd hsm hne
    | cons m rest => exact ⟨m, rest, rfl⟩
  have hval : modeOrElse fb l = m := by
    rw [modeOrElse, if_neg (by simpa [List.isEmpty_iff] using h), hmode]
  have hmmem : m ∈ seriesMode l := by rw [hmode]; exact List.mem_cons_self m rest
  have hm : m ∈ l ∧ l.count m = maxCount l := mem_seriesMode.mp hmmem
  refine hval ▸ ⟨hm.1, hm.2, ?_, ?_⟩
  · intro s hs
    rw [hm.2]
    exact count_le_maxCount hs
  · intro s hs hcount
    have hsmem : s ∈ seriesMode l := mem_seriesMode.mpr ⟨hs, hcount⟩
    rw [hmode] at hsmem
    rcases List.mem_cons.mp hsmem with rfl | hsmem
    · exact le_rfl
    · have hsorted := sorted_sortStrings
        ((uniqueFirst l).filter fun s => l.count s == maxCount l)
      rw [← seriesMode, hmode, List.pairwise_cons] at hsorted
      exact strLeB_iff.mp (hsorted.1 s hsmem)

/-- C1: the filter stage returns exactly the order-preserving subsequence
of records satisfying the conjunction of the three predicates: the output
is a subsequence of the input and a record of the input is in the output
iff its topic is selected, its trust score is at least `min_trust` and its
confidence is at least `min_conf`. -/
theorem filter_stage_correct (df : List Record) (topics : List String)
    (min_trust min_conf : ℚ) :
    (df_filtered df topics min_trust min_conf).Sublist df ∧
    ∀ r, r ∈ df_filtered df topics min_trust min_conf ↔
      r ∈ df ∧ r.topic ∈ topics ∧ min_trust ≤ r.trust_score ∧
        min_conf ≤ r.predicted_confidence := by
  constructor
  · exact List.filter_sublist df
  · intro r
    simp only [df_filtered, List.mem_filter, keepRow, Bool.and_eq_true,
      decide_eq_true_eq, List.contains_eq_any_beq, List.any_beq,
      List.elem_eq_mem]
    tauto

/-- C5: filtering is contractive — every output record belongs to the input
and satisfies the three predicates — and filtering with the loosest
parameters (all topics present in the table, `min_trust = 0`,
`min_confidence = 0`) is the identity, provided the data respects the
documented domains (`trust_score ∈ [0,100]`, `predicted_confidence ∈ [0,1]`,
here only the lower bounds are needed). -/
theorem filter_contractive_identity (df : List Record) (topics : List String)
    (min_trust min_conf : ℚ)
    (hdom : ∀ r ∈ df, 0 ≤ r.trust_score ∧ 0 ≤ r.predicted_confidence) :
    (∀ r ∈ df_filtered df topics min_trust min_conf,
        r ∈ df ∧ r.topic ∈ topics ∧ min_trust ≤ r.trust_score ∧
          min_conf ≤ r.predicted_confidence) ∧
    df_filtered df (uniqueTopics df) 0 0 = df := by
  constructor
  · intro r hr
    simp only [df_filtered, List.mem_filter, keepRow, Bool.and_eq_true,
      decide_eq_true_eq, List.contains_eq_any_beq, List.any_beq,
      List.elem_eq_mem] at hr
    tauto
  · apply List.filter_eq_self.mpr
    intro r hr
    simp only [keepRow, Bool.and_eq_true, decide_eq_true_eq,
      List.contains_eq_any_beq, List.any_beq, List.elem_eq_mem]
    refine ⟨⟨?_, (hdom r hr).1⟩, (hdom r hr).2⟩
    rw [uniqueTopics, mem_uniqueFirst]
    exact List.mem_map_of_mem Record.topic hr

/-- Closed instantiation of `filter_contractive_identity` on the sample
table. -/
theorem filter_contractive_identity_witness :
    (∀ r ∈ df_filtered sampleDf ["Economy"] 50 0,
        r ∈ sampleDf ∧ r.topic ∈ ["Economy"] ∧ (50 : ℚ) ≤ r.trust_score ∧
          (0 : ℚ) ≤ r.predicted_confidence) ∧
    df_filtered sampleDf (uniqueTopics sampleDf) 0 0 = sampleDf :=
  filter_contractive_identity sampleDf ["Economy"] 50 0 (by decide)

theorem topicGroup_ne_nil {f : List Record} {t : String}
    (h : t ∈ f.map Record.topic) : topicGroup f t ≠ [] := by
  rcases List.mem_map.mp h with ⟨r, hr, rfl⟩
  intro hnil
  have hmem : r ∈ topicGroup f r.topic :=
    List.mem_filter.mpr ⟨hr, by simp⟩
  rw [hnil] at hmem
  cases hmem

theorem topic_summary_topics (f : List Record) :
    (topic_summary f).map TopicRow.topic =
      sortStrings (uniqueFirst (f.map Record.topic)) := by
  rw [topic_summary, List.map_map]
  exact List.map_id _

theorem topic_summary_row {f : List Record} {row : TopicRow}
    (h : row ∈ topic_summary f) :
    row.topic ∈ f.map Record.topic ∧
    row.total_posts = (topicGroup f row.topic).length ∧
    row.most_frequent_sentiment =
      modeOrElse "N/A" ((topicGroup f row.topic).map Record.predicted_sentiment) := by
  rw [topic_summary, List.mem_map] at h
  rcases h with ⟨t, ht, rfl⟩
  refine ⟨?_, by simp [List.length_map], rfl⟩
  rw [← mem_uniqueFirst (f.map Record.topic)]
  exact (perm_sortStrings _).mem_iff.mp ht

/-- C3 counterexample: on a series where `"positive"` (first encountered)
and `"negative"` are tied for the highest count, the dashboard reports
`"negative"`, not the first-encountered `"positive"`: pandas `mode()`
returns the tied values sorted and `[0]` picks the lexicographically
least. -/
theorem most_frequent_tiebreak_counterexample :
    most_frequent_sentiment tieDf = "negative" ∧
    specModeFirstEncountered (tieDf.map Record.predicted_sentiment) = "positive" ∧
    (tieDf.map Record.predicted_sentiment).count "positive" =
      (tieDf.map Record.predicted_sentiment).count "negative" := by
  decide

/-- C3 (amended): the "most frequent sentiment" KPI is a value of
`predicted_sentiment` of maximal occurrence count, and among the labels
tied for the highest count it is the lexicographically least one (not the
first encountered); the per-topic dominant sentiment likewise is a
maximal-count value of its group, lexicographically least among the
group's tied labels; the empty-set sentinel is `"N/A"`. -/
theorem most_frequent_is_least_mode (f : List Record) (h : f ≠ []) :
    most_frequent_sentiment f ∈ f.map Record.predicted_sentiment ∧
    (∀ s ∈ f.map Record.predicted_sentiment,
        (f.map Record.predicted_sentiment).count s ≤
          (f.map Record.predicted_sentiment).count (most_frequent_sentiment f)) ∧
    (∀ s ∈ f.map Record.predicted_sentiment,
        (f.map Record.predicted_sentiment).count s =
          (f.map Record.predicted_sentiment).count (most_frequent_sentiment f) →
        most_frequent_sentiment f ≤ s) ∧
    most_frequent_sentiment ([] : List Record) = "N/A" ∧
    (∀ row ∈ topic_summary f,
        row.most_frequent_sentiment ∈
          (topicGroup f row.topic).map Record.predicted_sentiment ∧
        (∀ s ∈ (topicGroup f row.topic).map Record.predicted_sentiment,
          ((topicGroup f row.topic).map Record.predicted_sentiment).count s ≤
            ((topicGroup f row.topic).map Record.predicted_sentiment).count
              row.most_frequent_sentiment) ∧
        ∀ s ∈ (topicGroup f row.topic).map Record.predicted_sentiment,
          ((topicGroup f row.topic).map Record.predicted_sentiment).count s =
            ((topicGroup f row.topic).map Record.predicted_sentiment).count
              row.most_frequent_sentiment →
          row.most_frequent_sentiment ≤ s) := by
  have hS : f.map Record.predicted_sentiment ≠ [] := by
    simpa [List.map_eq_nil_iff] using h
  obtain ⟨hmem, hmax, hle, htie⟩ :=
    modeOrElse_spec "N/A" (f.map Record.predicted_sentiment) hS
  refine ⟨hmem, hle, ?_, rfl, ?_⟩
  · intro s hs hcount
    exact htie s hs (hcount.trans hmax)
  · intro row hrow
    obtain ⟨htopic, _, hmfs⟩ := topic_summary_row hrow
    have hG : (topicGroup f row.topic).map Record.predicted_sentiment ≠ [] := by
      simpa [List.map_eq_nil_iff] using topicGroup_ne_nil htopic
    obtain ⟨hmem', hmax', hle', htie'⟩ := modeOrElse_spec "N/A" _ hG
    refine ⟨hmfs ▸ hmem', fun s hs => hmfs ▸ hle' s hs, ?_⟩
    intro s hs hcount
    rw [hmfs] at hcount ⊢
    exact htie' s hs (hcount.trans hmax')

/-- Closed instantiation of `most_frequent_is_least_mode` on the sample
table. -/
theorem most_frequent_is_least_mode_witness :
    most_frequent_sentiment sampleDf ∈ sampleDf.map Record.predicted_sentiment ∧
    (∀ s ∈ sampleDf.map Record.predicted_sentiment,
        (sampleDf.map Record.predicted_sentiment).count s ≤
          (sampleDf.map Record.predicted_sentiment).count
            (most_frequent_sentiment sampleDf)) ∧
    (∀ s ∈ sampleDf.map Record.predicted_sentiment,
        (sampleDf.map Record.predicted_sentiment).count s =
          (sampleDf.map Record.predicted_sentiment).count
            (most_frequent_sentiment sampleDf) →
        most_frequent_sentiment sampleDf ≤ s) ∧
    most_frequent_sentiment ([] : List Record) = "N/A" ∧
    (∀ row ∈ topic_summary sampleDf,
        row.most_frequent_sentiment ∈
          (topicGroup sampleDf row.topic).map Record.predicted_sentiment ∧
        (∀ s ∈ (topicGroup sampleDf row.topic).map Record.predicted_sentiment,
          ((topicGroup sampleDf row.topic).map Record.predicted_sentiment).count s ≤
            ((topicGroup sampleDf row.topic).map Record.predicted_sentiment).count
              row.most_frequent_sentiment) ∧
        ∀ s ∈ (topicGroup sampleDf row.topic).map Record.predicted_sentiment,
          ((topicGroup sampleDf row.topic).map Record.predicted_sentiment).count s =
            ((topicGroup sampleDf row.topic).map Record.predicted_sentiment).count
              row.most_frequent_sentiment →
          row.most_frequent_sentiment ≤ s) :=
  most_frequent_is_least_mode sampleDf (by decide)

theorem foldl_min_le_init : ∀ (ds : List ℤ) (d : ℤ), ds.foldl min d ≤ d := by
  intro ds
  induction ds with
  | nil => intro d; exact le_rfl
  | cons m ms ih =>
    intro d
    exact le_trans (ih (min d m)) (min_le_left d m)

theorem foldl_min_le_mem :
    ∀ (ds : List ℤ) (d x : ℤ), x ∈ ds → ds.foldl min d ≤ x := by
  intro ds
  induction ds with
  | nil => intro d x hx; cases hx
  | cons m ms ih =>
    intro d x hx
    rcases List.mem_cons.mp hx with rfl | hx
    · exact le_trans (foldl_min_le_init ms (min d x)) (min_le_right d x)
    · exact ih (min d m) x hx

theorem foldl_min_cases :
    ∀ (ds : List ℤ) (d : ℤ), ds.foldl min d = d ∨ ds.foldl min d ∈ ds := by
  intro ds
  induction ds with
  | nil => intro d; exact Or.inl rfl
  | cons m ms ih =>
    intro d
    rcases ih (min d m) with hcase | hcase
    · rcases min_choice d m with hmin | hmin
      · exact Or.inl (by rw [List.foldl_cons, hcase, hmin])
      · exact Or.inr (by rw [List.foldl_cons, hcase, hmin]; exact List.mem_cons_self m ms)
    · exact Or.inr (List.mem_cons_of_mem m hcase)

theorem init_le_foldl_max : ∀ (ds : List ℤ) (d : ℤ), d ≤ ds.foldl max d := by
  intro ds
  induction ds with
  | nil => intro d; exact le_rfl
  | cons m ms ih =>
    intro d
    exact le_trans (le_max_left d m) (ih (max d m))

theorem mem_le_foldl_max :
    ∀ (ds : List ℤ) (d x : ℤ), x ∈ ds → x ≤ ds.foldl max d := by
  intro ds
  induction ds with
  | nil => intro d x hx; cases hx
  | cons m ms ih =>
    intro d x hx
    rcases List.mem_cons.mp hx with rfl | hx
    · exact le_trans (le_max_right d x) (init_le_foldl_max ms (max d x))
    · exact ih (max d m) x hx

theorem foldl_max_cases :
    ∀ (ds : List ℤ) (d : ℤ), ds.foldl max d = d ∨ ds.foldl max d ∈ ds := by
  intro ds
  induction ds with
  | nil => intro d; exact Or.inl rfl
  | cons m ms ih =>
    intro d
    rcases ih (max d m) with hcase | hcase
    · rcases max_choice d m with hmax | hmax
      · exact Or.inl (by rw [List.foldl_cons, hcase, hmax])
      · exact Or.inr (by rw [List.foldl_cons, hcase, hmax]; exact List.mem_cons_self m ms)
    · exact Or.inr (List.mem_cons_of_mem m hcase)

theorem daysSpan_eq {f : List Record} (h : f ≠ []) :
    ∃ lo hi, daysSpan f = some (lo, hi) ∧
      (∃ r ∈ f, dayOf r = lo) ∧ (∃ r ∈ f, dayOf r = hi) ∧
      ∀ r ∈ f, lo ≤ dayOf r ∧ dayOf r ≤ hi := by
  cases f with
  | nil => exact absurd rfl h
  | cons r0 fs =>
    refine ⟨(fs.map dayOf).foldl min (dayOf r0),
      (fs.map dayOf).foldl max (dayOf r0), rfl, ?_, ?_, ?_⟩
    · rcases foldl_min_cases (fs.map dayOf) (dayOf r0) with hc | hc
      · exact ⟨r0, List.mem_cons_self r0 fs, hc.symm⟩
      · rcases List.mem_map.mp hc with ⟨r, hr, hday⟩
        exact ⟨r, List.mem_cons_of_mem r0 hr, hday⟩
    · rcases foldl_max_cases (fs.map dayOf) (dayOf r0) with hc | hc
      · exact ⟨r0, List.mem_cons_self r0 fs, hc.symm⟩
      · rcases List.mem_map.mp hc with ⟨r, hr, hday⟩
        exact ⟨r, List.mem_cons_of_mem r0 hr, hday⟩
    · intro r hr
      rcases List.mem_cons.mp hr with rfl | hr
      · exact ⟨foldl_min_le_init _ _, init_le_foldl_max _ _⟩
      · exact ⟨foldl_min_le_mem _ _ _ (List.mem_map_of_mem dayOf hr),
          mem_le_foldl_max _ _ _ (List.mem_map_of_mem dayOf hr)⟩

theorem mem_resampleDays {f : List Record} (h : f ≠ []) (d : ℤ) :
    d ∈ resampleDays f ↔
      (∃ r ∈ f, dayOf r ≤ d) ∧ ∃ r ∈ f, d ≤ dayOf r := by
  obtain ⟨lo, hi, hspan, ⟨rlo, hrlo, hlo⟩, ⟨rhi, hrhi, hhi⟩, hbounds⟩ :=
    daysSpan_eq h
  rw [resampleDays, hspan]
  simp only [List.mem_map, List.mem_range]
  constructor
  · rintro ⟨i, hilt, rfl⟩
    refine ⟨⟨rlo, hrlo, ?_⟩, ⟨rhi, hrhi, ?_⟩⟩
    · rw [hlo]; omega
    · rw [hhi]
      have hlohi : lo ≤ hi := hlo ▸ (hbounds rlo hrlo).2.trans_eq' (congrArg _ rfl)
      omega
  · rintro ⟨⟨r1, hr1, hle1⟩, ⟨r2, hr2, hle2⟩⟩
    have h1 : lo ≤ d := le_trans (hbounds r1 hr1).1 hle1
    have h2 : d ≤ hi := le_trans hle2 (hbounds r2 hr2).2
    exact ⟨(d - lo).toNat, by omega, by omega⟩

theorem df_resampled_row {f : List Record} {row : ResampledRow}
    (h : row ∈ df_resampled f) :
    row.timestamp ∈ resampleDays f ∧
    row.predicted_sentiment =
      modeOrElse "neutral" ((bucket f row.timestamp).map Record.predicted_sentiment) ∧
    row.trust_score =
      (if (bucket f row.timestamp).isEmpty then none
       else some (seriesMean ((bucket f row.timestamp).map Record.trust_score))) ∧
    row.sentiment_value = sentiment_map row.predicted_sentiment := by
  rw [df_resampled, List.mem_map] at h
  rcases h with ⟨d, hd, rfl⟩
  exact ⟨hd, rfl, rfl, rfl⟩

theorem df_resampled_surj {f : List Record} {d : ℤ}
    (hd : d ∈ resampleDays f) :
    ∃ row ∈ df_resampled f, row.timestamp = d := by
  refine ⟨_, List.mem_map_of_mem _ hd, rfl⟩

/-- C2 counterexample: on a filtered set whose records fall on days 0 and
2 only, the resampled time series also emits day 1 — a day absent from
the set — and its row carries the `'neutral'` fallback (`resample('D')`
creates a bucket for every day of the span, empty ones included). -/
theorem resample_gap_day_counterexample :
    gapDf.map dayOf = [0, 2] ∧
    (df_resampled gapDf).map ResampledRow.timestamp = [0, 1, 2] ∧
    (df_resampled gapDf).map ResampledRow.predicted_sentiment =
      ["positive", "neutral", "positive"] := by
  decide

/-- C2 (amended): for a non-empty filtered set the daily time series
emits exactly the calendar days of the closed interval from the earliest
to the latest day of the set — days of the interval with no record
included — and every emitted day with no record carries the `'neutral'`
fallback sentiment and a missing mean trust score. -/
theorem resample_days_cover_span (f : List Record) (h : f ≠ []) :
    (∀ d : ℤ, (∃ row ∈ df_resampled f, row.timestamp = d) ↔
        (∃ r ∈ f, dayOf r ≤ d) ∧ ∃ r ∈ f, d ≤ dayOf r) ∧
    ∀ row ∈ df_resampled f, (∀ r ∈ f, dayOf r ≠ row.timestamp) →
      row.predicted_sentiment = "neutral" ∧ row.trust_score = none := by
  constructor
  · intro d
    rw [← mem_resampleDays h d]
    constructor
    · rintro ⟨row, hrow, rfl⟩
      exact (df_resampled_row hrow).1
    · intro hd
      exact df_resampled_surj hd
  · intro row hrow hmiss
    obtain ⟨-, hsent, htrust, -⟩ := df_resampled_row hrow
    have hbucket : bucket f row.timestamp = [] := by
      rw [bucket, List.filter_eq_nil_iff]
      intro r hr
      simpa using hmiss r hr
    rw [hbucket] at hsent htrust
    exact ⟨by simpa [modeOrElse] using hsent, by simpa using htrust⟩

/-- Closed instantiation of `resample_days_cover_span` on the gap
table. -/
theorem resample_days_cover_span_witness :
    (∀ d : ℤ, (∃ row ∈ df_resampled gapDf, row.timestamp = d) ↔
        (∃ r ∈ gapDf, dayOf r ≤ d) ∧ ∃ r ∈ gapDf, d ≤ dayOf r) ∧
    ∀ row ∈ df_resampled gapDf, (∀ r ∈ gapDf, dayOf r ≠ row.timestamp) →
      row.predicted_sentiment = "neutral" ∧ row.trust_score = none :=
  resample_days_cover_span gapDf (by decide)

theorem topicGroup_length_eq_count (f : List Record) (t : String) :
    (topicGroup f t).length = (f.map Record.topic).count t := by
  rw [topicGroup, ← List.countP_eq_length_filter, List.count, List.countP_map]
  rfl

theorem topic_summary_counts (f : List Record) :
    (topic_summary f).map TopicRow.total_posts =
      (sortStrings (uniqueFirst (f.map Record.topic))).map
        fun t => (f.map Record.topic).count t := by
  rw [topic_summary, List.map_map]
  refine List.map_congr_left fun t _ => ?_
  show ((topicGroup f t).map Record.tweet_id).length = (f.map Record.topic).count t
  rw [List.length_map, topicGroup_length_eq_count]

/-- C6: the per-topic summary partitions the filtered set: its rows carry
pairwise distinct topics, a topic appears as a row iff it occurs in the
filtered set, each row counts exactly the records of its topic, and the
per-topic counts add up to the number of filtered records. -/
theorem topic_summary_partition (f : List Record) :
    ((topic_summary f).map TopicRow.topic).Nodup ∧
    (∀ t, t ∈ (topic_summary f).map TopicRow.topic ↔ t ∈ f.map Record.topic) ∧
    (∀ row ∈ topic_summary f, row.total_posts = (topicGroup f row.topic).length) ∧
    ((topic_summary f).map TopicRow.total_posts).sum = f.length := by
  refine ⟨?_, ?_, ?_, ?_⟩
  · rw [topic_summary_topics]
    exact ((perm_sortStrings _).nodup_iff).mpr (nodup_uniqueFirst _)
  · intro t
    rw [topic_summary_topics, (perm_sortStrings _).mem_iff, mem_uniqueFirst]
  · intro row hrow
    rw [topic_summary, List.mem_map] at hrow
    rcases hrow with ⟨t, _, rfl⟩
    exact List.length_map _ _
  · rw [topic_summary_counts]
    have hnodup : (sortStrings (uniqueFirst (f.map Record.topic))).Nodup :=
      ((perm_sortStrings _).nodup_iff).mpr (nodup_uniqueFirst _)
    rw [← List.sum_toFinset _ hnodup]
    have hfs : (sortStrings (uniqueFirst (f.map Record.topic))).toFinset =
        (f.map Record.topic).toFinset := by
      ext t
      simp only [List.mem_toFinset, (perm_sortStrings _).mem_iff, mem_uniqueFirst]
    rw [hfs, List.sum_toFinset_count_eq_length, List.length_map]

/-- C4: the pipeline short-circuits exactly on an empty filtered set: the
"no data" warning (with `st.stop()`) is emitted iff the filter result is
empty, and on a non-empty filter result the run renders every aggregate —
KPIs, daily time series, per-topic summary and the record lookup — of the
filtered set. -/
theorem empty_filter_short_circuit (df : List Record) (topics : List String)
    (mt mc : ℚ) (selId : String) :
    (runDashboard df topics mt mc selId = RenderResult.noData ↔
       df_filtered df topics mt mc = []) ∧
    (df_filtered df topics mt mc ≠ [] →
       ∃ out, runDashboard df topics mt mc selId = RenderResult.rendered out ∧
         out.total_posts = (df_filtered df topics mt mc).length ∧
         out.avg_trust_score =
           seriesMean ((df_filtered df topics mt mc).map Record.trust_score) ∧
         out.avg_sentiment_confidence =
           seriesMean ((df_filtered df topics mt mc).map Record.predicted_confidence) ∧
         out.most_frequent_sentiment =
           most_frequent_sentiment (df_filtered df topics mt mc) ∧
         out.resampled = df_resampled (df_filtered df topics mt mc) ∧
         out.topic_rows = topic_summary (df_filtered df topics mt mc) ∧
         out.selected = selected_row (df_filtered df topics mt mc) selId) := by
  constructor
  · rw [runDashboard]
    by_cases hemp : (df_filtered df topics mt mc).isEmpty
    · rw [if_pos hemp]
      rw [List.isEmpty_iff] at hemp
      simp [hemp]
    · rw [if_neg hemp]
      rw [List.isEmpty_iff] at hemp
      simp [hemp]
  · intro hne
    rw [runDashboard, if_neg (by simpa [List.isEmpty_iff] using hne)]
    exact ⟨_, rfl, rfl, rfl, rfl, rfl, rfl, rfl, rfl⟩

/-- Closed instantiation of `empty_filter_short_circuit` on the sample
table with a non-empty filter result. -/
theorem empty_filter_short_circuit_witness :
    (runDashboard sampleDf ["Economy"] 0 0 "t1" = RenderResult.noData ↔
       df_filtered sampleDf ["Economy"] 0 0 = []) ∧
    (∃ out, runDashboard sampleDf ["Economy"] 0 0 "t1" = RenderResult.rendered out ∧
       out.total_posts = (df_filtered sampleDf ["Economy"] 0 0).length ∧
       out.avg_trust_score =
         seriesMean ((df_filtered sampleDf ["Economy"] 0 0).map Record.trust_score) ∧
       out.avg_sentiment_confidence =
         seriesMean ((df_filtered sampleDf ["Economy"] 0 0).map Record.predicted_confidence) ∧
       out.most_frequent_sentiment =
         most_frequent_sentiment (df_filtered sampleDf ["Economy"] 0 0) ∧
       out.resampled = df_resampled (df_filtered sampleDf ["Economy"] 0 0) ∧
       out.topic_rows = topic_summary (df_filtered sampleDf ["Economy"] 0 0) ∧
       out.selected = selected_row (df_filtered sampleDf ["Economy"] 0 0) "t1") :=
  ⟨(empty_filter_short_circuit sampleDf ["Economy"] 0 0 "t1").1,
   (empty_filter_short_circuit sampleDf ["Economy"] 0 0 "t1").2 (by decide)⟩

/-- C7: the daily time series maps its dominant sentiment to a signed
integer by exactly the table `{positive: 1, neutral: 0, negative: -1}`;
any other label yields a missing value; the `sentiment_value` of every
resampled row is the image of its `predicted_sentiment` under this
table. -/
theorem sentiment_map_table (s : String)
    (h : s ≠ "positive" ∧ s ≠ "neutral" ∧ s ≠ "negative") :
    sentiment_map "positive" = some 1 ∧
    sentiment_map "neutral" = some 0 ∧
    sentiment_map "negative" = some (-1) ∧
    sentiment_map s = none ∧
    ∀ (f : List Record), ∀ row ∈ df_resampled f,
      row.sentiment_value = sentiment_map row.predicted_sentiment := by
  refine ⟨rfl, rfl, rfl, ?_, ?_⟩
  · rw [sentiment_map, if_neg h.1, if_neg h.2.1, if_neg h.2.2]
  · intro f row hrow
    exact (df_resampled_row hrow).2.2.2

/-- Closed instantiation of `sentiment_map_table` at the label
`"mixed"`. -/
theorem sentiment_map_table_witness :
    sentiment_map "positive" = some 1 ∧
    sentiment_map "neutral" = some 0 ∧
    sentiment_map "negative" = some (-1) ∧
    sentiment_map "mixed" = none ∧
    ∀ (f : List Record), ∀ row ∈ df_resampled f,
      row.sentiment_value = sentiment_map row.predicted_sentiment :=
  sentiment_map_table "mixed" (by decide)

/-- C8: when tweet ids are unique and the selected id occurs in the
filtered set, exactly one record matches, the lookup returns it, and the
structured field dump of that record lists every field except
`trust_explanation`. -/
theorem lookup_unique (f : List Record) (tid : String)
    (hnodup : (f.map Record.tweet_id).Nodup)
    (hmem : tid ∈ f.map Record.tweet_id) :
    (f.filter fun r => r.tweet_id == tid).length = 1 ∧
    ∃ r, selected_row f tid = some r ∧ r ∈ f ∧ r.tweet_id = tid ∧
      "trust_explanation" ∉ (full_details r).map Prod.fst ∧
      (full_details r).map Prod.fst =
        ["tweet_id", "timestamp", "topic", "text", "predicted_sentiment",
         "predicted_confidence", "trust_score"] := by
  have hcount : (f.map Record.tweet_id).count tid = 1 :=
    List.count_eq_one_of_mem hnodup hmem
  have hlen : (f.filter fun r => r.tweet_id == tid).length = 1 := by
    rw [← List.countP_eq_length_filter]
    rw [List.count, List.countP_map] at hcount
    exact hcount
  obtain ⟨r, hr⟩ := List.length_eq_one.mp hlen
  refine ⟨hlen, r, ?_, ?_, ?_, by simp [full_details], rfl⟩
  · rw [selected_row, hr]; rfl
  · have : r ∈ f.filter fun x => x.tweet_id == tid := by
      rw [hr]; exact List.mem_cons_self r []
    exact (List.mem_filter.mp this).1
  · have : r ∈ f.filter fun x => x.tweet_id == tid := by
      rw [hr]; exact List.mem_cons_self r []
    simpa using (List.mem_filter.mp this).2

/-- Closed instantiation of `lookup_unique` on the sample table. -/
theorem lookup_unique_witness :
    (sampleDf.filter fun r => r.tweet_id == "t2").length = 1 ∧
    ∃ r, selected_row sampleDf "t2" = some r ∧ r ∈ sampleDf ∧
      r.tweet_id = "t2" ∧
      "trust_explanation" ∉ (full_details r).map Prod.fst ∧
      (full_details r).map Prod.fst =
        ["tweet_id", "timestamp", "topic", "text", "predicted_sentiment",
         "predicted_confidence", "trust_score"] :=
  lookup_unique sampleDf "t2" (by decide) (by decide)

theorem filter_head_split {p : Record → Bool} :
    ∀ (l : List Record) (r : Record), (l.filter p).head? = some r →
      p r = true ∧ ∃ l1 l2, l = l1 ++ r :: l2 ∧ ∀ x ∈ l1, p x = false := by
  intro l
  induction l with
  | nil => intro r h; simp at h
  | cons a as ih =>
    intro r h
    by_cases hpa : p a
    · rw [List.filter_cons_of_pos hpa] at h
      have ha : a = r := by simpa using h
      subst ha
      exact ⟨hpa, [], as, rfl, by intro x hx; cases hx⟩
    · rw [List.filter_cons_of_neg (by simpa using hpa)] at h
      obtain ⟨hpr, l1, l2, rfl, hl1⟩ := ih r h
      refine ⟨hpr, a :: l1, l2, rfl, ?_⟩
      intro x hx
      rcases List.mem_cons.mp hx with rfl | hx
      · simpa using hpa
      · exact hl1 x hx

/-- C10: when more than one record of the filtered set carries the
selected tweet id, the lookup does not fail: `iloc[0]` returns the first
matching record in the set's order and the remaining matches are
ignored. -/
theorem lookup_duplicate_first (f : List Record) (tid : String)
    (h : 1 < (f.filter fun r => r.tweet_id == tid).length) :
    ∃ r l1 l2, selected_row f tid = some r ∧ f = l1 ++ r :: l2 ∧
      r.tweet_id = tid ∧ ∀ x ∈ l1, x.tweet_id ≠ tid := by
  have hne : (f.filter fun r => r.tweet_id == tid) ≠ [] := by
    intro hnil
    rw [hnil] at h
    simp at h
  obtain ⟨r, hr⟩ : ∃ r, (f.filter fun x => x.tweet_id == tid).head? = some r := by
    cases hh : (f.filter fun x => x.tweet_id == tid) with
    | nil => exact absurd hh hne
    | cons a l => exact ⟨a, rfl⟩
  obtain ⟨hpr, l1, l2, heq, hl1⟩ := filter_head_split f r hr
  refine ⟨r, l1, l2, hr, heq, by simpa using hpr, ?_⟩
  intro x hx
  have := hl1 x hx
  simpa using this

/-- Closed instantiation of `lookup_duplicate_first` on the table with a
duplicated tweet id. -/
theorem lookup_duplicate_first_witness :
    ∃ r l1 l2, selected_row dupDf "t1" = some r ∧ dupDf = l1 ++ r :: l2 ∧
      r.tweet_id = "t1" ∧ ∀ x ∈ l1, x.tweet_id ≠ "t1" :=
  lookup_duplicate_first dupDf "t1" (by decide)

/-- C9: the loaded record set is immutable across the session: each rerun
of the pipeline hands the loaded table on unchanged, so after any
sequence of filter/selection interactions the table equals the one
loaded. -/
theorem loaded_table_immutable (df : List Record) (is : List Interaction) :
    sessionTable df is = df ∧ ∀ i : Interaction, (rerun df i).1 = df := by
  refine ⟨?_, fun _ => rfl⟩
  induction is with
  | nil => rfl
  | cons i is ih => exact ih

end Dashboard
